import Mathlib

namespace AaltoHub

/-!
Verification of the aaltohub live crawler service (`src/backend/app/live_crawler.py`)
and the SSE manager (`src/backend/app/sse.py`) against its natural-language
specification.

The Python code is shallowly embedded: stateful classes become explicit state
records with pure transition functions, wall-clock readings (`time.monotonic()`)
become explicit arguments, and external effects (database calls, Telegram API
calls) become oracle parameters describing their outcome.  Monotonic-clock
readings are modelled as integers (`ℤ`); every comparison the code performs on
them is order-theoretic, so nothing depends on fractional values.
-/

/-! ## Circuit breaker (`CircuitBreaker`, live_crawler.py lines 92-138)

Constants from the source: CB_FAILURE_THRESHOLD = 5, CB_FAILURE_WINDOW = 60 s,
CB_RECOVERY_TIMEOUT = 30 s. -/

def CB_FAILURE_THRESHOLD : Nat := 5

def CB_FAILURE_WINDOW : ℤ := 60

def CB_RECOVERY_TIMEOUT : ℤ := 30

/-- The three states of the breaker (the Python code stores them as the
strings "closed", "open" and "half-open"). -/
inductive CBState where
  | closed
  | openS
  | halfOpen
  deriving DecidableEq, Repr

/-- State of a `CircuitBreaker` instance: `failures` is the list of monotonic
timestamps of recorded failures (`self._failures`), `state` is `self._state`,
`openedAt` is `self._opened_at`. -/
structure CircuitBreaker where
  failures : List ℤ
  state : CBState
  openedAt : ℤ
  deriving DecidableEq, Repr

/-- `CircuitBreaker.__init__`: empty failure list, closed, `_opened_at = 0`. -/
def CircuitBreaker.init : CircuitBreaker := ⟨[], CBState.closed, 0⟩

/-- The `is_open` property.  It both returns a decision and (in the open
state, once the recovery timeout has elapsed) mutates the state to half-open,
so the embedding returns the answer together with the updated breaker.
`now` is the value of `time.monotonic()`. -/
def CircuitBreaker.isOpen (cb : CircuitBreaker) (now : ℤ) : Bool × CircuitBreaker :=
  match cb.state with
  | CBState.closed => (false, cb)
  | CBState.openS =>
      if now - cb.openedAt ≥ CB_RECOVERY_TIMEOUT then
        (false, { cb with state := CBState.halfOpen })
      else
        (true, cb)
  | CBState.halfOpen => (false, cb)

/-- `record_success`: unconditionally close and clear the failure list. -/
def CircuitBreaker.recordSuccess (cb : CircuitBreaker) : CircuitBreaker :=
  { cb with state := CBState.closed, failures := [] }

/-- The failures of `cb` still inside the sliding window at time `now`,
followed by the newly recorded failure (the list
`[t for t in self._failures if now - t < CB_FAILURE_WINDOW] + [now]`). -/
def CircuitBreaker.prunedFailures (cb : CircuitBreaker) (now : ℤ) : List ℤ :=
  (cb.failures.filter (fun t => now - t < CB_FAILURE_WINDOW)) ++ [now]

/-- `record_failure`: prune the sliding window, append `now`, and open the
breaker when the threshold is reached (recording `now` as `_opened_at`). -/
def CircuitBreaker.recordFailure (cb : CircuitBreaker) (now : ℤ) : CircuitBreaker :=
  let fs := cb.prunedFailures now
  if CB_FAILURE_THRESHOLD ≤ fs.length then
    ⟨fs, CBState.openS, now⟩
  else
    { cb with failures := fs }

/-- Five failures recorded at time 0 starting from the initial breaker. -/
def cbAfterFiveFailures : CircuitBreaker :=
  (((((CircuitBreaker.init.recordFailure 0).recordFailure 0).recordFailure
      0).recordFailure 0).recordFailure 0)

/-! ## Message queue and enqueue (`_enqueue_message`, live_crawler.py lines 655-749)

`MSG_QUEUE_MAXSIZE = 10000`.  The `asyncio.Queue` is modelled as a list of
queue items (front of the list = front of the queue); `put_nowait` raises
`QueueFull` exactly when the queue already holds `maxsize` items, and the
handler then routes the prepared `message_data` to the dead-letter store. -/

def MSG_QUEUE_MAXSIZE : Nat := 10000

/-- The two actions a queue item can carry: `"insert"` for new messages and
`"upsert"` for edits. -/
inductive QAction where
  | insert
  | upsert
  deriving DecidableEq, Repr

/-- Abstraction of the `message_data` dict built by `_enqueue_message`: only
the identity fields matter for the claims. -/
structure MsgData where
  telegramMessageId : ℤ
  groupId : ℤ
  deriving DecidableEq, Repr

/-- A queue item as built at live_crawler.py lines 732-737. -/
structure QueueItem where
  action : QAction
  data : MsgData
  broadcast : Bool
  deriving DecidableEq, Repr

/-- The queue item `_enqueue_message` builds: `action = "upsert" if is_edit
else "insert"`, `broadcast = broadcast and not is_edit`. -/
def mkQueueItem (data : MsgData) (isEdit : Bool) (broadcast : Bool) : QueueItem :=
  { action := if isEdit then QAction.upsert else QAction.insert
    data := data
    broadcast := broadcast && !isEdit }

/-- The enqueue step of `_enqueue_message` (lines 739-746): `put_nowait` the
item; on `QueueFull` (queue length at `maxsize`) append the `message_data`
to the dead-letter store instead.  Returns the new queue and the new
dead-letter store. -/
def enqueuePut (queue : List QueueItem) (deadLetters : List MsgData)
    (item : QueueItem) : List QueueItem × List MsgData :=
  if queue.length < MSG_QUEUE_MAXSIZE then
    (queue ++ [item], deadLetters)
  else
    (queue, deadLetters ++ [item.data])

/-! ## DB writer batching (`_db_writer`, live_crawler.py lines 438-487)

`BATCH_SIZE = 50`, `BATCH_TIMEOUT = 2` seconds.  The writer is modelled over
a finite time-sorted stream of `(arrivalTime, item)` pairs; flushing is
instantaneous.  The writer state between batches is the monotonic time at
which the previous inner loop exited (`ready`); the first `get` of a round
returns at `max ready arrival`.  The outer 5-second `wait_for` around the
first `get` only re-checks the `running` flag and then retries the `get`, so
it is invisible on a stream that is fully drained while running. -/

def BATCH_SIZE : Nat := 50

def BATCH_TIMEOUT : ℤ := 2

/-- The inner drain loop of `_db_writer` (lines 456-467): starting with
`count` items already in the batch at time `now`, keep getting items while
the batch holds fewer than `BATCH_SIZE` and the deadline (2 s after the
first item) has not passed.  Returns the items drained into the batch, the
stream left over, and the time at which the loop exits (the deadline when it
exits by timeout, the current time when it exits by the size cap). -/
def collectMore (deadline : ℤ) : Nat → ℤ → List (ℤ × QueueItem) →
    List QueueItem × List (ℤ × QueueItem) × ℤ
  | count, now, [] =>
      if BATCH_SIZE ≤ count then ([], [], now)
      else if deadline ≤ now then ([], [], now)
      else ([], [], deadline)
  | count, now, (t, a) :: rest =>
      if BATCH_SIZE ≤ count then ([], (t, a) :: rest, now)
      else if deadline ≤ now then ([], (t, a) :: rest, now)
      else if t < deadline then
        let r := collectMore deadline (count + 1) (max now t) rest
        (a :: r.1, r.2.1, r.2.2)
      else ([], (t, a) :: rest, deadline)

/-- The outer loop of `_db_writer`, with an explicit bound on the number of
rounds (each round consumes at least the first item, so the stream length
bounds the rounds). -/
def dbWriterAux : Nat → ℤ → List (ℤ × QueueItem) → List (List QueueItem)
  | 0, _, _ => []
  | _ + 1, _, [] => []
  | fuel + 1, ready, (t, a) :: rest =>
      let start := max ready t
      let r := collectMore (start + BATCH_TIMEOUT) 1 start rest
      (a :: r.1) :: dbWriterAux fuel r.2.2 r.2.1

/-- `_db_writer` on a finite time-sorted stream: the batches it flushes, in
order.  `ready` is the time at which the writer starts waiting. -/
def dbWriter (ready : ℤ) (stream : List (ℤ × QueueItem)) : List (List QueueItem) :=
  dbWriterAux stream.length ready stream

/-- A burst of 60 messages for one group, all arriving at time 0. -/
def burst60 : List (ℤ × QueueItem) :=
  (List.range 60).map (fun i => ((0 : ℤ), mkQueueItem ⟨(i : ℤ), 1⟩ false true))

/-- Ten messages at time 0 and ten trailing messages at time 3, after the
2-second window of the first batch has closed. -/
def burstLate : List (ℤ × QueueItem) :=
  (List.range 10).map (fun i => ((0 : ℤ), mkQueueItem ⟨(i : ℤ), 1⟩ false true)) ++
  (List.range 10).map (fun i => ((3 : ℤ), mkQueueItem ⟨(100 + i : ℤ), 1⟩ false true))

/-! ## Batch flush (`_flush_batch`, live_crawler.py lines 587-653)

DB outcomes are an oracle: whether the bulk insert succeeds, and per-row
whether the fallback single insert and the per-item edit upsert succeed.
The `media_url` key-drop on edit payloads (lines 641-642) only normalizes a
null field inside `data` and is invisible in the `MsgData` abstraction. -/

/-- Outcome oracle for the DB calls of one `_flush_batch` run. -/
structure DbOracle where
  batchOK : Bool
  singleOK : MsgData → Bool
  upsertOK : MsgData → Bool

/-- A fan-out notification sent via `_broadcast` (`"insert"` or `"update"`
together with the message data). -/
structure Notification where
  event : String
  data : MsgData
  deriving DecidableEq, Repr

/-- Result of one `_flush_batch` run: the notifications published in order,
the rows routed to the dead-letter store in order, and the circuit breaker
after all `record_success`/`record_failure` calls. -/
structure FlushResult where
  broadcasts : List Notification
  deadLetters : List MsgData
  cb : CircuitBreaker
  deriving DecidableEq, Repr

/-- The insert-action items of a batch, in order (line 606-610). -/
def insertsOf (batch : List QueueItem) : List QueueItem :=
  batch.filter (fun i => i.action != QAction.upsert)

/-- The upsert-action (edit) items of a batch, in order. -/
def upsertsOf (batch : List QueueItem) : List QueueItem :=
  batch.filter (fun i => i.action == QAction.upsert)

/-- The per-row fallback loop after a failed bulk insert (lines 622-631):
each row is tried individually; success records breaker success and keeps
the item as persisted, failure records breaker failure and dead-letters the
row.  Returns (persisted items, dead-lettered rows, breaker). -/
def fallbackInserts (orc : DbOracle) (now : ℤ) :
    CircuitBreaker → List QueueItem → List QueueItem × List MsgData × CircuitBreaker
  | cb, [] => ([], [], cb)
  | cb, item :: rest =>
      if orc.singleOK item.data then
        let r := fallbackInserts orc now cb.recordSuccess rest
        (item :: r.1, r.2.1, r.2.2)
      else
        let r := fallbackInserts orc now (cb.recordFailure now) rest
        (r.1, item.data :: r.2.1, r.2.2)

/-- The edit loop (lines 639-650): each edit is upserted individually;
success records breaker success and publishes an `"update"` notification,
failure records breaker failure and dead-letters the row. -/
def processUpserts (orc : DbOracle) (now : ℤ) :
    CircuitBreaker → List QueueItem → List Notification × List MsgData × CircuitBreaker
  | cb, [] => ([], [], cb)
  | cb, item :: rest =>
      if orc.upsertOK item.data then
        let r := processUpserts orc now cb.recordSuccess rest
        (Notification.mk "update" item.data :: r.1, r.2.1, r.2.2)
      else
        let r := processUpserts orc now (cb.recordFailure now) rest
        (r.1, item.data :: r.2.1, r.2.2)

/-- `_flush_batch`: check the breaker once (sending the whole batch to the
dead-letter store if it is open), bulk-insert the new messages with a
per-row fallback on failure, publish an `"insert"` notification for every
persisted insert whose broadcast flag is set, then process edits one by
one, publishing an `"update"` notification for every successful edit. -/
def flushBatch (cb0 : CircuitBreaker) (now : ℤ) (orc : DbOracle)
    (batch : List QueueItem) : FlushResult :=
  let chk := cb0.isOpen now
  if chk.1 then
    { broadcasts := [], deadLetters := batch.map (fun i => i.data), cb := chk.2 }
  else
    let inserts := insertsOf batch
    let ins :=
      if inserts.isEmpty then (([] : List QueueItem), ([] : List MsgData), chk.2)
      else if orc.batchOK then (inserts, ([] : List MsgData), chk.2.recordSuccess)
      else fallbackInserts orc now chk.2 inserts
    let insBroadcasts :=
      (ins.1.filter (fun i => i.broadcast)).map (fun i => Notification.mk "insert" i.data)
    let ups := processUpserts orc now ins.2.2 (upsertsOf batch)
    { broadcasts := insBroadcasts ++ ups.1
      deadLetters := ins.2.1 ++ ups.2.1
      cb := ups.2.2 }

/-- The insert items whose write succeeds: all of them when the bulk insert
succeeds, otherwise those whose individual fallback insert succeeds. -/
def persistedInserts (orc : DbOracle) (inserts : List QueueItem) : List QueueItem :=
  if orc.batchOK then inserts else inserts.filter (fun i => orc.singleOK i.data)

/-- The insert items whose write fails (none when the bulk insert
succeeds). -/
def persistedFailures (orc : DbOracle) (inserts : List QueueItem) : List QueueItem :=
  if orc.batchOK then [] else inserts.filter (fun i => !orc.singleOK i.data)

/-! ## Gap-fill cycle (`_periodic_gap_fill`, live_crawler.py lines 992-1061)

`now = time.monotonic()` is read once per cycle (line 1009) and used for all
penalty comparisons of that cycle.  The per-group processing (enabled check,
entity resolution, message streaming) is abstracted into an outcome oracle;
a `FloodWaitError` carries the seconds of the penalty and the monotonic time
at which it was raised (`time.monotonic() + e.seconds`, line 1055). -/

/-- Per-group outcome of one gap-fill attempt. -/
inductive GOutcome where
  | notEnabled
  | noEntity
  | ok (n : Nat)
  | flood (sec : ℤ) (raisedAt : ℤ)
  | err
  deriving DecidableEq, Repr

/-- Result of one gap-fill cycle: the groups whose lookback window was
re-streamed, the groups skipped for an active FloodWait penalty, the penalty
map afterwards (`self._flood_wait_until`, with `.get(gid, 0)` semantics
baked into the function), and the total number of re-enqueued messages. -/
structure GapFillResult where
  processed : List ℤ
  skippedFlood : List ℤ
  pens : ℤ → ℤ
  filled : Nat

/-- One gap-fill cycle over the group list, in order (lines 1010-1057):
a group with `now < penalty` is skipped; otherwise its outcome is applied —
`ok n` adds `n` to the filled count, `flood sec raisedAt` records the
per-group penalty expiry `raisedAt + sec`, every other outcome just moves
on to the next group. -/
def gapFillCycle (now : ℤ) (outcome : ℤ → GOutcome) :
    (ℤ → ℤ) → List ℤ → GapFillResult
  | pens, [] => ⟨[], [], pens, 0⟩
  | pens, g :: rest =>
      if now < pens g then
        let r := gapFillCycle now outcome pens rest
        ⟨r.processed, g :: r.skippedFlood, r.pens, r.filled⟩
      else
        match outcome g with
        | GOutcome.ok n =>
            let r := gapFillCycle now outcome pens rest
            ⟨g :: r.processed, r.skippedFlood, r.pens, r.filled + n⟩
        | GOutcome.flood sec raisedAt =>
            let r := gapFillCycle now outcome
              (fun x => if x = g then raisedAt + sec else pens x) rest
            ⟨r.processed, r.skippedFlood, r.pens, r.filled⟩
        | _ =>
            let r := gapFillCycle now outcome pens rest
            ⟨r.processed, r.skippedFlood, r.pens, r.filled⟩

/-- Penalty map of the gap-fill witness: group 1 is penalized until time 10. -/
def gapPensExample : ℤ → ℤ := fun g => if g = 1 then 10 else 0

/-- Outcome oracle of the gap-fill witness: group 2 streams 3 messages,
group 3 raises FloodWait(7 s) at time 5. -/
def gapOutcomeExample : ℤ → GOutcome := fun g =>
  if g = 2 then GOutcome.ok 3
  else if g = 3 then GOutcome.flood 7 5
  else GOutcome.ok 0

/-! ## Chat-id normalization and the delete handler
(`_normalize_chat_id` lines 818-828, `on_message_deleted` lines 1328-1349)

`str(chat_id)` is modelled as the most-significant-first decimal digit list
of its absolute value; `startswith("-100")` becomes "the digit list starts
with 1, 0, 0", and `int(s[4:])` becomes the value of the remaining digits,
raising (`none`) when nothing follows the "-100" marker. -/

def decDigitsAux : Nat → Nat → List Nat
  | 0, _ => []
  | fuel + 1, n => if n < 10 then [n] else decDigitsAux fuel (n / 10) ++ [n % 10]

/-- Most-significant-first decimal digits of `n` (the digits of `str(n)`). -/
def decDigits (n : Nat) : List Nat := decDigitsAux (n + 1) n

/-- Value of a most-significant-first decimal digit list (`int(s)`). -/
def digitsVal (ds : List Nat) : Nat := ds.foldl (fun a d => a * 10 + d) 0

/-- `_normalize_chat_id`: a non-negative id is returned as is; a negative id
whose decimal form starts with "-100" has that marker stripped (`none`
models the `ValueError` crash of `int("")` when nothing follows the
marker); any other negative id is negated.  The `None → 0` branch concerns
an optional argument that cannot be `None` at the modelled call site. -/
def normalizeChatId (chatId : ℤ) : Option ℤ :=
  if chatId < 0 then
    let ds := decDigits (-chatId).toNat
    if ds.take 3 = [1, 0, 0] then
      if ds.drop 3 = [] then none
      else some ((digitsVal (ds.drop 3) : ℕ) : ℤ)
    else some (-chatId)
  else some chatId

/-- A row of the `messages` table (the columns the delete path touches). -/
structure DbRow where
  telegramMessageId : ℤ
  groupId : ℤ
  isDeleted : Bool
  deriving DecidableEq, Repr

/-- The per-row effect of
`UPDATE messages SET is_deleted = TRUE
 WHERE telegram_message_id = ANY($1) AND group_id = $2`. -/
def softDeleteRow (groupUuid : ℤ) (deletedIds : List ℤ) (r : DbRow) : DbRow :=
  if r.groupId = groupUuid ∧ r.telegramMessageId ∈ deletedIds then
    { r with isDeleted := true }
  else r

/-- `on_message_deleted`: normalize the chat id, look it up in
`group_id_map` (returning unchanged state when absent or when normalization
raises), apply one batch soft-delete UPDATE to the message rows, and publish
one `"update"` notification per deleted id.  The ingestion queue is not
touched.  Returns (rows, notifications, queue). -/
def onMessageDeleted (groupIdMap : ℤ → Option ℤ) (db : List DbRow)
    (queue : List QueueItem) (chatId : ℤ) (deletedIds : List ℤ) :
    List DbRow × List Notification × List QueueItem :=
  match normalizeChatId chatId with
  | none => (db, [], queue)
  | some cid =>
      match groupIdMap cid with
      | none => (db, [], queue)
      | some groupUuid =>
          (db.map (softDeleteRow groupUuid deletedIds),
           deletedIds.map (fun mid => Notification.mk "update" ⟨mid, groupUuid⟩),
           queue)

/-- Group map of the delete witness: telegram id 1234 is group 42. -/
def gmapExample : ℤ → Option ℤ := fun c => if c = 1234 then some 42 else none

/-- Three message rows: two in group 42, one in group 43. -/
def dbExample : List DbRow := [⟨7, 42, false⟩, ⟨8, 42, false⟩, ⟨7, 43, false⟩]

/-! ## Cached enabled check (`_is_group_enabled`, live_crawler.py lines 1255-1274)

`ENABLED_CACHE_TTL = 60` s, `ENABLED_CACHE_MAX_SIZE = 1000`.  The cache
`self._enabled_cache : dict[str, tuple[bool, float]]` is an association list
in insertion order; Python's `sorted(cache, key=timestamp)` is the stable
`mergeSort` by timestamp. -/

def ENABLED_CACHE_TTL : ℤ := 60

def ENABLED_CACHE_MAX_SIZE : Nat := 1000

abbrev EnabledCache := List (String × Bool × ℤ)

/-- `self._enabled_cache.get(group_uuid)`. -/
def lookupEnabled (cache : EnabledCache) (k : String) : Option (Bool × ℤ) :=
  (cache.find? (fun e => e.1 == k)).map (fun e => e.2)

/-- The eviction step (lines 1269-1272): when the cache has reached its max
size, delete the oldest `len - max + 1` entries by timestamp (stable sort,
ties broken by insertion order, matching Python's `sorted`). -/
def evictOldestEnabled (cache : EnabledCache) : EnabledCache :=
  if ENABLED_CACHE_MAX_SIZE ≤ cache.length then
    let victims :=
      ((cache.mergeSort (fun a b => decide (a.2.2 ≤ b.2.2))).take
        (cache.length - ENABLED_CACHE_MAX_SIZE + 1)).map (fun e => e.1)
    cache.filter (fun e => !(victims.contains e.1))
  else cache

/-- `self._enabled_cache[group_uuid] = v`: overwrite in place when the key
exists, append otherwise (Python dict assignment keeps insertion order). -/
def setEnabledKey (cache : EnabledCache) (k : String) (v : Bool × ℤ) : EnabledCache :=
  if (cache.find? (fun e => e.1 == k)).isSome then
    cache.map (fun e => if e.1 == k then (k, v) else e)
  else cache ++ [(k, v)]

/-- The query path of `_is_group_enabled` (cache miss or stale entry):
`fetchval` either raises (`Except.error`), returns no row / NULL
(`Except.ok none`) or returns the stored flag; a missing row and an
exception both yield `True`; the result is cached at time `now` after the
eviction check. -/
def isGroupEnabledQuery (cache : EnabledCache) (now : ℤ)
    (dbResult : Except Unit (Option Bool)) (k : String) : Bool × EnabledCache :=
  let enabled :=
    match dbResult with
    | Except.ok (some v) => v
    | Except.ok none => true
    | Except.error _ => true
  (enabled, setEnabledKey (evictOldestEnabled cache) k (enabled, now))

/-- `_is_group_enabled`: a cached entry younger than the TTL is returned
without touching the DB or the cache; otherwise the query path runs. -/
def isGroupEnabled (cache : EnabledCache) (now : ℤ)
    (dbResult : Except Unit (Option Bool)) (k : String) : Bool × EnabledCache :=
  match lookupEnabled cache k with
  | some (v, t) =>
      if now - t < ENABLED_CACHE_TTL then (v, cache)
      else isGroupEnabledQuery cache now dbResult k
  | none => isGroupEnabledQuery cache now dbResult k

/-! ## Entity resolution (`_get_entity_for_group_with_client`, lines 881-949)

`DIALOGS_COOLDOWN = 600` s, `ENTITY_CACHE_MAX_SIZE = 5000`.  The in-memory
entity cache `self._entity_cache : dict[int, tuple[int, str, float]]` maps a
telegram id to `(access_hash, entity_type, last_access_time)` and is an
association list in insertion order.  The Telegram API calls are an oracle:
the `get_entity` attempt with the cached routing handle, the two direct
`get_entity(PeerChannel/PeerChat)` attempts, the `get_dialogs()` listing and
the final `get_entity(PeerChannel)` retry. -/

def DIALOGS_COOLDOWN : ℤ := 600

def ENTITY_CACHE_MAX_SIZE : Nat := 5000

/-- Kinds of Telethon entities the resolver distinguishes
(`isinstance(entity, Channel)` / `Chat`, anything else behaves like a
user). -/
inductive EntityKind where
  | channel
  | chat
  | user
  deriving DecidableEq, Repr

/-- A resolved Telethon entity. -/
structure TLEntity where
  id : ℤ
  kind : EntityKind
  accessHash : ℤ
  deriving DecidableEq, Repr

abbrev EntityCache := List (ℤ × ℤ × String × ℤ)

/-- `self._entity_cache.get(gid)`. -/
def entityCacheLookup (c : EntityCache) (gid : ℤ) : Option (ℤ × String × ℤ) :=
  (c.find? (fun e => e.1 == gid)).map (fun e => e.2)

/-- `self._entity_cache[gid] = v` (dict assignment keeps insertion order). -/
def entityCacheSet (c : EntityCache) (gid : ℤ) (v : ℤ × String × ℤ) : EntityCache :=
  if (c.find? (fun e => e.1 == gid)).isSome then
    c.map (fun e => if e.1 == gid then (gid, v) else e)
  else c ++ [(gid, v)]

/-- `self._entity_cache.pop(gid, None)` (plus the DB `DELETE`, tracked
separately). -/
def entityCacheErase (c : EntityCache) (gid : ℤ) : EntityCache :=
  c.filter (fun e => !(e.1 == gid))

/-- The LRU eviction of `_save_entity_to_cache` (lines 862-867): when the
cache has reached its max size, drop the least-recently-accessed
`len - max + 1` entries (stable sort by access time, matching Python's
`sorted`). -/
def entityCacheEvict (c : EntityCache) : EntityCache :=
  if ENTITY_CACHE_MAX_SIZE ≤ c.length then
    let victims :=
      ((c.mergeSort (fun a b => decide (a.2.2.2 ≤ b.2.2.2))).take
        (c.length - ENTITY_CACHE_MAX_SIZE + 1)).map (fun e => e.1)
    c.filter (fun e => !(victims.contains e.1))
  else c

/-- `_save_entity_to_cache`: evict if at capacity, then write the entry
stamped with the current monotonic time (the fire-and-forget DB write
mirrors the in-memory entry and is not modelled separately). -/
def saveEntityToCache (c : EntityCache) (gid hash : ℤ) (ty : String) (now : ℤ) :
    EntityCache :=
  entityCacheSet (entityCacheEvict c) gid (hash, ty, now)

/-- `_cache_entity`: only Channel and Chat entities are cached (a Chat has
no access hash and is stored with 0). -/
def cacheEntity (c : EntityCache) (e : TLEntity) (now : ℤ) : EntityCache :=
  match e.kind with
  | EntityKind.channel => saveEntityToCache c e.id e.accessHash "channel" now
  | EntityKind.chat => saveEntityToCache c e.id 0 "chat" now
  | EntityKind.user => c

/-- Oracle for the Telegram API calls of one resolution run. -/
structure ResolveOracle where
  cachedRes : Option TLEntity
  dirChannel : Option TLEntity
  dirChat : Option TLEntity
  dialogs : List TLEntity
  finalChannel : Option TLEntity

/-- Result of one `_get_entity_for_group_with_client` run. -/
structure ResolveResult where
  outcome : Except String TLEntity
  cache : EntityCache
  dbDeleted : Bool
  dialogsCalled : Bool
  lastFetch : ℤ

/-- The `ValueError` message raised when every resolution step fails. -/
def entityErrorMsg (gid : ℤ) : String :=
  "Could not resolve entity for group ID " ++ toString gid ++
    ". Is the admin a member of this group?"

/-- The `get_dialogs()` warming loop (lines 929-936): cache every discovered
Channel/Chat entity and remember the last dialog entity whose id matches
the target. -/
def warmDialogs (gid : ℤ) (now : ℤ) :
    EntityCache → Option TLEntity → List TLEntity → EntityCache × Option TLEntity
  | c, tgt, [] => (c, tgt)
  | c, tgt, e :: rest =>
      warmDialogs gid now (cacheEntity c e now)
        (if e.id = gid then some e else tgt) rest

/-- Steps 2-4 of the resolution (lines 910-949), reached on a cache miss or
after a stale cache entry was evicted (`deleted` records whether the
eviction's DB DELETE was issued): direct `PeerChannel` then `PeerChat`
resolution; then — unless the dialog-listing cooldown is active — a full
`get_dialogs()` warming that caches all discovered Channel/Chat entities
and returns the target if discovered; then one final `PeerChannel` retry;
and otherwise the domain error. -/
def resolveAfterCacheMiss (gid : ℤ) (cache : EntityCache) (orc : ResolveOracle)
    (now lastFetch : ℤ) (deleted : Bool) : ResolveResult :=
  match orc.dirChannel with
  | some e => ⟨Except.ok e, cacheEntity cache e now, deleted, false, lastFetch⟩
  | none =>
    match orc.dirChat with
    | some e => ⟨Except.ok e, cacheEntity cache e now, deleted, false, lastFetch⟩
    | none =>
        if now - lastFetch < DIALOGS_COOLDOWN then
          match orc.finalChannel with
          | some e => ⟨Except.ok e, cacheEntity cache e now, deleted, false, lastFetch⟩
          | none => ⟨Except.error (entityErrorMsg gid), cache, deleted, false, lastFetch⟩
        else
          match (warmDialogs gid now cache none orc.dialogs).2 with
          | some tgt =>
              ⟨Except.ok tgt, (warmDialogs gid now cache none orc.dialogs).1,
               deleted, true, now⟩
          | none =>
              match orc.finalChannel with
              | some e =>
                  ⟨Except.ok e,
                   cacheEntity (warmDialogs gid now cache none orc.dialogs).1 e now,
                   deleted, true, now⟩
              | none =>
                  ⟨Except.error (entityErrorMsg gid),
                   (warmDialogs gid now cache none orc.dialogs).1,
                   deleted, true, now⟩

/-- `_get_entity_for_group_with_client`: step 1 consults the in-memory
cache; a hit refreshes the entry's access time and attempts resolution with
the cached routing handle; on failure the stale entry is removed from
memory and from the persisted `entity_cache` table before falling through
to the remaining steps. -/
def resolveEntity (gid : ℤ) (cache0 : EntityCache) (orc : ResolveOracle)
    (now lastFetch : ℤ) : ResolveResult :=
  match entityCacheLookup cache0 gid with
  | some (hash, ty, _) =>
      match orc.cachedRes with
      | some e =>
          ⟨Except.ok e, entityCacheSet cache0 gid (hash, ty, now), false, false, lastFetch⟩
      | none =>
          resolveAfterCacheMiss gid
            (entityCacheErase (entityCacheSet cache0 gid (hash, ty, now)) gid)
            orc now lastFetch true
  | none => resolveAfterCacheMiss gid cache0 orc now lastFetch false

/-- Entity cache of the resolution witness: telegram id 5 is a channel with
access hash 77, last touched at time 0. -/
def entityCacheExample : EntityCache := [(5, (77, "channel", 0))]

/-- Oracle of the cache-hit witness. -/
def orcHitExample : ResolveOracle :=
  ⟨some ⟨5, EntityKind.channel, 77⟩, none, none, [], none⟩

/-- Oracle of the dialog-warming witness: direct resolution fails and the
listing discovers channel 6. -/
def orcWarmExample : ResolveOracle :=
  ⟨none, none, none, [⟨6, EntityKind.channel, 88⟩], none⟩

/-! ## NOTIFY payload truncation (`_broadcast`, live_crawler.py lines 539-560)

`json.dumps({"event": event, "payload": payload}, default=str)` is modelled
length-faithfully: the payload dict is split into its `content` field and
the serialized remainder of its key-value pairs (`others`), and the
serializer is the literal concatenation with the JSON punctuation (braces
written as escapes).  Python's `content[:200]` slices characters, modelled
by taking the first 200 characters of the string data. -/

/-- A payload about to be broadcast: the `content` field and the serialized
rest of the dict. -/
structure BPayload where
  others : String
  content : String
  deriving DecidableEq, Repr

/-- The serialized notification string handed to `pg_notify`. -/
def serializeNotification (ev : String) (p : BPayload) : String :=
  "\x7b\"event\": \"" ++ ev ++ "\", \"payload\": \x7b" ++ p.others ++
    ", \"content\": \"" ++ p.content ++ "\"\x7d\x7d"

/-- The guard the code applies below the 8000-byte Postgres NOTIFY limit. -/
def NOTIFY_GUARD : Nat := 7900

/-- Python string slicing `s[:n]`. -/
def pySlice (s : String) (n : Nat) : String := String.mk (s.data.take n)

/-- Lines 553-556: replace the content by its first 200 characters plus an
ellipsis, but only when it is longer than 200 characters. -/
def truncatePayload (p : BPayload) : BPayload :=
  if p.content.length > 200 then
    { p with content := pySlice p.content 200 ++ "..." }
  else p

/-- `_broadcast`: serialize; when the result exceeds the guard, truncate the
content and re-serialize; the returned string is what `pg_notify`
receives. -/
def broadcastNotification (ev : String) (p : BPayload) : String :=
  if (serializeNotification ev p).length > NOTIFY_GUARD then
    serializeNotification ev (truncatePayload p)
  else serializeNotification ev p

/-- A 9000-character field value. -/
def bigOthers : String := String.mk (List.replicate 9000 'a')

/-! ## SSE manager (`SSEManager`, sse.py lines 23-107)

The subscriber registry `self._subscribers : dict[str, set[Queue]]` is
modelled as a function from group id to `Option (Finset ℕ)` (queues are
identified by a number; `none` means the key is absent from the dict). -/

abbrev Registry := String → Option (Finset ℕ)

/-- One iteration of the `subscribe` loop:
`self._subscribers.setdefault(gid, set()).add(queue)`. -/
def subscribeOne (q : ℕ) (reg : Registry) (gid : String) : Registry :=
  fun x => if x = gid then some ((reg gid).getD ∅ ∪ {q}) else reg x

/-- `SSEManager.subscribe` (sse.py lines 88-93): add the fresh client queue
`q` to every listed group's subscriber set. -/
def subscribe (gids : List String) (q : ℕ) (reg : Registry) : Registry :=
  gids.foldl (subscribeOne q) reg

/-- One iteration of the `unsubscribe` loop (sse.py lines 97-102):
discard the queue and delete the key if its set became empty. -/
def unsubscribeOne (q : ℕ) (reg : Registry) (gid : String) : Registry :=
  match reg gid with
  | none => reg
  | some s =>
      let s2 := s.erase q
      if s2 = ∅ then fun x => if x = gid then none else reg x
      else fun x => if x = gid then some s2 else reg x

/-- `SSEManager.unsubscribe` (sse.py lines 95-102). -/
def unsubscribe (gids : List String) (q : ℕ) (reg : Registry) : Registry :=
  gids.foldl (unsubscribeOne q) reg

/-- The effect of one unsubscribe iteration on the key it touches. -/
def removeFrom (q : ℕ) (o : Option (Finset ℕ)) : Option (Finset ℕ) :=
  match o with
  | none => none
  | some s =>
      let s2 := s.erase q
      if s2 = ∅ then none else some s2

/-- Example registry: group "a" has one subscriber, queue 1. -/
def regExample : Registry := fun x => if x = "a" then some {1} else none

/-! ## Theorems -/

theorem cbAfterFiveFailures_open : cbAfterFiveFailures.state = CBState.openS := by
  decide

/-- C1: the claim asserts that in the half-open state exactly one trial write
is permitted and that a trial failure returns the breaker to open.  Both
parts fail on the code: with five failures recorded at time 0 the breaker
opens; at time 100 the recovery timeout has long elapsed, so `is_open`
moves it to half-open and answers `false` — but a second `is_open` check is
again `false` (a second trial is permitted just the same), and recording the
trial's failure at time 100 leaves the breaker half-open (the five old
failures have left the 60 s window, so the threshold is not reached) instead
of returning it to open. -/
theorem C1_counterexample :
    (cbAfterFiveFailures.isOpen 100).1 = false ∧
    (((cbAfterFiveFailures.isOpen 100).2.isOpen 100).1 = false) ∧
    (((cbAfterFiveFailures.isOpen 100).2.recordFailure 100).state = CBState.halfOpen) := by
  decide

/-- C1 (amended): the breaker starts closed; `record_failure` opens it exactly
when the pruned failure count (the new failure included) reaches the
threshold, and otherwise leaves the state unchanged; once the recovery
timeout has elapsed since opening, a trial is permitted and the breaker
moves to half-open; while half-open every check is permitted (until an
outcome is recorded); a success always returns it to closed; a failure
recorded while half-open re-opens it exactly when the in-window failure
count again reaches the threshold, and otherwise leaves it half-open. -/
theorem C1_circuit_breaker_amended :
    CircuitBreaker.init.state = CBState.closed ∧
    (∀ (cb : CircuitBreaker) (t : ℤ),
      (cb.recordFailure t).state =
        (if CB_FAILURE_THRESHOLD ≤ (cb.prunedFailures t).length then CBState.openS
         else cb.state)) ∧
    (∀ (cb : CircuitBreaker) (t : ℤ),
      cb.state = CBState.openS → CB_RECOVERY_TIMEOUT ≤ t - cb.openedAt →
        cb.isOpen t = (false, { cb with state := CBState.halfOpen })) ∧
    (∀ (cb : CircuitBreaker) (t : ℤ),
      cb.state = CBState.halfOpen → (cb.isOpen t).1 = false) ∧
    (∀ (cb : CircuitBreaker), (cb.recordSuccess).state = CBState.closed) ∧
    (∀ (cb : CircuitBreaker) (t : ℤ),
      cb.state = CBState.halfOpen →
        ((cb.recordFailure t).state = CBState.openS ↔
          CB_FAILURE_THRESHOLD ≤ (cb.prunedFailures t).length)) := by
  refine ⟨rfl, ?_, ?_, ?_, ?_, ?_⟩
  · intro cb t
    simp only [CircuitBreaker.recordFailure]
    split <;> rfl
  · intro cb t hst ht
    simp only [CircuitBreaker.isOpen, hst, ge_iff_le, ht, if_pos]
  · intro cb t hst
    simp only [CircuitBreaker.isOpen, hst]
  · intro cb
    rfl
  · intro cb t hst
    simp only [CircuitBreaker.recordFailure]
    split
    next h => simp [h]
    next h =>
      have : ({ cb with failures := cb.prunedFailures t } : CircuitBreaker).state
          = cb.state := rfl
      rw [this, hst]
      simp [h]

/-- Witness for `C1_circuit_breaker_amended` at concrete inputs: the breaker
opened by five failures at time 0 admits a trial at time 31 and moves to
half-open; a half-open breaker admits a check. -/
theorem C1_circuit_breaker_amended_witness :
    cbAfterFiveFailures.isOpen 31 =
      (false, { cbAfterFiveFailures with state := CBState.halfOpen }) ∧
    ((⟨[0], CBState.halfOpen, 0⟩ : CircuitBreaker).isOpen 40).1 = false ∧
    (((⟨[0], CBState.halfOpen, 0⟩ : CircuitBreaker).recordFailure 40).state = CBState.openS ↔
      CB_FAILURE_THRESHOLD ≤
        ((⟨[0], CBState.halfOpen, 0⟩ : CircuitBreaker).prunedFailures 40).length) :=
  ⟨C1_circuit_breaker_amended.2.2.1 cbAfterFiveFailures 31 (by decide) (by decide),
   C1_circuit_breaker_amended.2.2.2.1 ⟨[0], CBState.halfOpen, 0⟩ 40 rfl,
   C1_circuit_breaker_amended.2.2.2.2.2 ⟨[0], CBState.halfOpen, 0⟩ 40 rfl⟩

/-- C2: when the ingestion queue is at capacity (10000 items), the enqueue of
a captured new-message or edited-message item does not grow the queue and
the item's data is appended to the dead-letter store (not dropped); below
capacity the item is simply enqueued. -/
theorem C2_queue_full_routes_to_dead_letter
    (queue : List QueueItem) (deadLetters : List MsgData) (item : QueueItem) :
    (MSG_QUEUE_MAXSIZE ≤ queue.length →
      enqueuePut queue deadLetters item = (queue, deadLetters ++ [item.data])) ∧
    (queue.length < MSG_QUEUE_MAXSIZE →
      enqueuePut queue deadLetters item = (queue ++ [item], deadLetters)) := by
  constructor
  · intro h
    simp [enqueuePut, Nat.not_lt.mpr h]
  · intro h
    simp [enqueuePut, h]

/-- Witness for `C2_queue_full_routes_to_dead_letter`: a queue holding
exactly 10000 items routes the next item to the dead-letter store. -/
theorem C2_queue_full_routes_to_dead_letter_witness :
    enqueuePut (List.replicate 10000 (mkQueueItem ⟨1, 1⟩ false true)) []
        (mkQueueItem ⟨2, 1⟩ false true) =
      (List.replicate 10000 (mkQueueItem ⟨1, 1⟩ false true),
       [(⟨2, 1⟩ : MsgData)]) := by
  have h := (C2_queue_full_routes_to_dead_letter
      (List.replicate 10000 (mkQueueItem ⟨1, 1⟩ false true)) []
      (mkQueueItem ⟨2, 1⟩ false true)).1
      (by simp only [List.length_replicate]; decide)
  simpa only [List.nil_append, mkQueueItem] using h

theorem collectMore_rest_length (d : ℤ) (c : Nat) (n : ℤ) (l : List (ℤ × QueueItem)) :
    (collectMore d c n l).2.1.length ≤ l.length := by
  induction l generalizing c n with
  | nil =>
      simp only [collectMore]
      split
      · simp
      · split <;> simp
  | cons p rest ih =>
      obtain ⟨t, a⟩ := p
      simp only [collectMore]
      split
      · simp
      · split
        · simp
        · split
          · exact Nat.le_succ_of_le (ih _ _)
          · simp

theorem collectMore_batch_length (d : ℤ) (c : Nat) (n : ℤ) (l : List (ℤ × QueueItem)) :
    (collectMore d c n l).1.length ≤ BATCH_SIZE - c := by
  induction l generalizing c n with
  | nil =>
      simp only [collectMore]
      split
      · simp
      · split <;> simp
  | cons p rest ih =>
      obtain ⟨t, a⟩ := p
      simp only [collectMore]
      split
      · simp
      · split
        · simp
        · split
          · have h := ih (c + 1) (max n t)
            next hc _ _ =>
              simp only [List.length_cons]
              omega
          · simp

/-- `collectMore` takes a prefix of the stream: the batch items are exactly
the items of that prefix (order preserved), and every item drained into the
batch arrived strictly before the deadline. -/
theorem collectMore_prefix (d : ℤ) (c : Nat) (n : ℤ) (l : List (ℤ × QueueItem)) :
    ∃ pre, l = pre ++ (collectMore d c n l).2.1 ∧
      (collectMore d c n l).1 = pre.map Prod.snd ∧
      ∀ p ∈ pre, p.1 < d := by
  induction l generalizing c n with
  | nil =>
      refine ⟨[], ?_, ?_, by simp⟩
      · simp only [collectMore]
        split
        · simp
        · split <;> simp
      · simp only [collectMore]
        split
        · simp
        · split <;> simp
  | cons p rest ih =>
      obtain ⟨t, a⟩ := p
      simp only [collectMore]
      split
      · exact ⟨[], by simp⟩
      · split
        · exact ⟨[], by simp⟩
        · split
          · next hc hd ht =>
              obtain ⟨pre, hpre, hbatch, htimes⟩ := ih (c + 1) (max n t)
              refine ⟨(t, a) :: pre, ?_, ?_, ?_⟩
              · simpa using congrArg (List.cons (t, a)) hpre
              · simpa using hbatch
              · intro q hq
                rcases List.mem_cons.mp hq with h | h
                · subst h; exact ht
                · exact htimes q h
          · exact ⟨[], by simp⟩

theorem dbWriterAux_flatten (fuel : Nat) (ready : ℤ) (stream : List (ℤ × QueueItem))
    (hfuel : stream.length ≤ fuel) :
    (dbWriterAux fuel ready stream).flatten = stream.map Prod.snd := by
  induction fuel generalizing ready stream with
  | zero =>
      have : stream = [] := List.length_eq_zero.mp (Nat.le_zero.mp hfuel)
      subst this
      simp [dbWriterAux]
  | succ fuel ih =>
      cases stream with
      | nil => simp [dbWriterAux]
      | cons p rest =>
          obtain ⟨t, a⟩ := p
          simp only [dbWriterAux, List.flatten_cons]
          obtain ⟨pre, hpre, hbatch, _⟩ :=
            collectMore_prefix (max ready t + BATCH_TIMEOUT) 1 (max ready t) rest
          have hlen : (collectMore (max ready t + BATCH_TIMEOUT) 1 (max ready t)
              rest).2.1.length ≤ fuel := by
            have := collectMore_rest_length (max ready t + BATCH_TIMEOUT) 1 (max ready t) rest
            simp only [List.length_cons] at hfuel
            omega
          rw [ih _ _ hlen, hbatch]
          conv_rhs => rw [hpre]
          simp

/-- Sizes of the batches produced from each example burst. -/
theorem dbWriter_burst60_sizes :
    (dbWriter 0 burst60).map List.length = [50, 10] := by decide

/-- C3: the batch writer drains the queue in hybrid size/time windows:
every batch holds at most BATCH_SIZE (50) items; within one window every
item drained after the first arrived strictly before the 2-second deadline
that started at the first item; the batches together contain exactly the
stream's items in order (nothing is dropped or reordered); and concretely a
burst of 60 items at one instant is flushed as one batch of 50 followed by
one batch of 10, while 10 items at time 0 with 10 trailing items at time 3
(after the first window closed) are flushed as two batches of 10. -/
theorem C3_db_writer_batching :
    ((dbWriter 0 burst60).map List.length = [50, 10]) ∧
    ((dbWriter 0 burstLate).map List.length = [10, 10]) ∧
    (∀ (ready : ℤ) (stream : List (ℤ × QueueItem)) (b : List QueueItem),
      b ∈ dbWriter ready stream → b.length ≤ BATCH_SIZE) ∧
    (∀ (ready : ℤ) (stream : List (ℤ × QueueItem)),
      (dbWriter ready stream).flatten = stream.map Prod.snd) ∧
    (∀ (d : ℤ) (c : Nat) (n : ℤ) (l : List (ℤ × QueueItem)),
      ∃ pre, l = pre ++ (collectMore d c n l).2.1 ∧
        (collectMore d c n l).1 = pre.map Prod.snd ∧
        ∀ p ∈ pre, p.1 < d) := by
  refine ⟨by decide, by decide, ?_, ?_, collectMore_prefix⟩
  · intro ready stream b hb
    unfold dbWriter at hb
    generalize hfuel : stream.length = fuel at hb
    clear hfuel
    induction fuel generalizing ready stream with
    | zero => simp [dbWriterAux] at hb
    | succ fuel ih =>
        cases stream with
        | nil => simp [dbWriterAux] at hb
        | cons p rest =>
            obtain ⟨t, a⟩ := p
            simp only [dbWriterAux, List.mem_cons] at hb
            rcases hb with hb | hb
            · subst hb
              have h := collectMore_batch_length (max ready t + BATCH_TIMEOUT) 1
                (max ready t) rest
              simp only [List.length_cons, BATCH_SIZE] at *
              omega
            · exact ih _ _ hb
  · intro ready stream
    exact dbWriterAux_flatten _ _ _ (Nat.le_refl _)

/-- Witness for `C3_db_writer_batching`: instantiating the size cap at the
single-item stream and the window property at a concrete call. -/
theorem C3_db_writer_batching_witness :
    ([mkQueueItem ⟨1, 1⟩ false true].length ≤ BATCH_SIZE) ∧
    (dbWriter 0 [(0, mkQueueItem ⟨1, 1⟩ false true)]).flatten =
      [(((0 : ℤ), mkQueueItem ⟨1, 1⟩ false true))].map Prod.snd :=
  ⟨C3_db_writer_batching.2.2.1 0 [(0, mkQueueItem ⟨1, 1⟩ false true)]
      [mkQueueItem ⟨1, 1⟩ false true] (by decide),
   C3_db_writer_batching.2.2.2.1 0 [(0, mkQueueItem ⟨1, 1⟩ false true)]⟩

theorem fallbackInserts_spec (orc : DbOracle) (now : ℤ) (cb : CircuitBreaker)
    (l : List QueueItem) :
    (fallbackInserts orc now cb l).1 = l.filter (fun i => orc.singleOK i.data) ∧
    (fallbackInserts orc now cb l).2.1 =
      (l.filter (fun i => !orc.singleOK i.data)).map (fun i => i.data) := by
  induction l generalizing cb with
  | nil => simp [fallbackInserts]
  | cons item rest ih =>
      by_cases h : orc.singleOK item.data <;>
        simp [fallbackInserts, h, (ih _).1, (ih _).2]

theorem processUpserts_spec (orc : DbOracle) (now : ℤ) (cb : CircuitBreaker)
    (l : List QueueItem) :
    (processUpserts orc now cb l).1 =
      (l.filter (fun i => orc.upsertOK i.data)).map
        (fun i => Notification.mk "update" i.data) ∧
    (processUpserts orc now cb l).2.1 =
      (l.filter (fun i => !orc.upsertOK i.data)).map (fun i => i.data) := by
  induction l generalizing cb with
  | nil => simp [processUpserts]
  | cons item rest ih =>
      by_cases h : orc.upsertOK item.data <;>
        simp [processUpserts, h, (ih _).1, (ih _).2]

/-- C4: the claim states that for every processed queue item a notification
is published iff the item was persisted and its broadcast flag is not
suppressed.  This fails for edit items: their queue flag is always false
(`broadcast and not is_edit`), yet `_flush_batch` publishes an `"update"`
notification for every successfully persisted edit without consulting the
flag.  Concretely, a batch holding one edit item with its broadcast flag
suppressed, whose write succeeds, publishes one update notification. -/
theorem C4_counterexample :
    (flushBatch CircuitBreaker.init 0
        ⟨true, fun _ => true, fun _ => true⟩
        [⟨QAction.upsert, ⟨7, 1⟩, false⟩]).broadcasts =
      [Notification.mk "update" ⟨7, 1⟩] ∧
    (⟨QAction.upsert, ⟨7, 1⟩, false⟩ : QueueItem).broadcast = false := by
  decide

/-- C4 (amended): when the breaker check is open nothing is published and
the whole batch is dead-lettered; otherwise the published notifications are
exactly one `"insert"` per persisted insert-action item whose broadcast
flag is not suppressed (in batch order), followed by one `"update"` per
edit item whose write succeeds regardless of its flag, and the dead-letter
rows are exactly the failed inserts followed by the failed edits. -/
theorem C4_broadcast_amended (cb0 : CircuitBreaker) (now : ℤ) (orc : DbOracle)
    (batch : List QueueItem) :
    ((flushBatch cb0 now orc batch).broadcasts =
      if (cb0.isOpen now).1 then []
      else
        ((persistedInserts orc (insertsOf batch)).filter (fun i => i.broadcast)).map
          (fun i => Notification.mk "insert" i.data) ++
        ((upsertsOf batch).filter (fun i => orc.upsertOK i.data)).map
          (fun i => Notification.mk "update" i.data)) ∧
    ((flushBatch cb0 now orc batch).deadLetters =
      if (cb0.isOpen now).1 then batch.map (fun i => i.data)
      else
        ((persistedFailures orc (insertsOf batch)).map (fun i => i.data)) ++
        (((upsertsOf batch).filter (fun i => !orc.upsertOK i.data)).map
          (fun i => i.data))) := by
  by_cases hopen : (cb0.isOpen now).1
  · simp [flushBatch, hopen]
  · simp only [flushBatch, hopen, Bool.false_eq_true, if_false, if_neg]
    by_cases hemp : (insertsOf batch).isEmpty
    · have he : insertsOf batch = [] := List.isEmpty_iff.mp hemp
      simp [hemp, he, persistedInserts, persistedFailures,
        (processUpserts_spec orc now _ _).1, (processUpserts_spec orc now _ _).2]
    · by_cases hbk : orc.batchOK
      · simp [hemp, hbk, persistedInserts, persistedFailures,
          (processUpserts_spec orc now _ _).1, (processUpserts_spec orc now _ _).2]
      · simp [hemp, hbk, persistedInserts, persistedFailures,
          (fallbackInserts_spec orc now _ _).1, (fallbackInserts_spec orc now _ _).2,
          (processUpserts_spec orc now _ _).1, (processUpserts_spec orc now _ _).2]

theorem gapFillCycle_processed_subset (now : ℤ) (outcome : ℤ → GOutcome)
    (l : List ℤ) : ∀ pens, (gapFillCycle now outcome pens l).processed ⊆ l := by
  induction l with
  | nil => intro pens; simp [gapFillCycle]
  | cons g rest ih =>
      intro pens
      simp only [gapFillCycle]
      split
      · exact (ih pens).trans (List.subset_cons_self g rest)
      · cases houtc : outcome g <;> simp only []
        case ok n =>
          exact List.cons_subset_cons g (ih pens)
        all_goals exact (ih _).trans (List.subset_cons_self g rest)

theorem gapFillCycle_pens_not_mem (now : ℤ) (outcome : ℤ → GOutcome)
    (l : List ℤ) (x : ℤ) (hx : x ∉ l) :
    ∀ pens, (gapFillCycle now outcome pens l).pens x = pens x := by
  induction l with
  | nil => intro pens; simp [gapFillCycle]
  | cons g rest ih =>
      intro pens
      have hxg : x ≠ g := fun h => hx (h ▸ List.mem_cons_self g rest)
      have hxr : x ∉ rest := fun h => hx (List.mem_cons_of_mem g h)
      simp only [gapFillCycle]
      split
      · exact ih hxr pens
      · cases houtc : outcome g <;> simp only []
        case flood sec raisedAt =>
          rw [ih hxr]
          simp [hxg]
        all_goals exact ih hxr pens

/-- C6: in one gap-fill cycle, every group whose FloodWait penalty has not
expired is skipped for that cycle only (it is recorded as flood-skipped,
not processed, and its penalty is left unchanged so the next cycle retries
it); every group without an active penalty is still visited in the same
cycle and is re-streamed exactly when its own outcome is a successful
stream — independently of what happens to the other groups, so one
throttled or FloodWaited group never stalls the rest — and a FloodWaitError
raised while processing a group records that group's penalty expiry without
aborting the loop. -/
theorem C6_gap_fill_skips_penalized (now : ℤ) (outcome : ℤ → GOutcome)
    (pens : ℤ → ℤ) (groups : List ℤ) (hnd : groups.Nodup) :
    (∀ g ∈ groups, now < pens g →
      g ∈ (gapFillCycle now outcome pens groups).skippedFlood ∧
      g ∉ (gapFillCycle now outcome pens groups).processed ∧
      (gapFillCycle now outcome pens groups).pens g = pens g) ∧
    (∀ g ∈ groups, ¬ now < pens g →
      (g ∈ (gapFillCycle now outcome pens groups).processed ↔
        ∃ n, outcome g = GOutcome.ok n) ∧
      (∀ sec raisedAt, outcome g = GOutcome.flood sec raisedAt →
        (gapFillCycle now outcome pens groups).pens g = raisedAt + sec)) := by
  induction groups generalizing pens with
  | nil => exact ⟨fun g hg => absurd hg (List.not_mem_nil g), fun g hg => absurd hg (List.not_mem_nil g)⟩
  | cons a rest ih =>
      have hand : a ∉ rest := (List.nodup_cons.mp hnd).1
      have hndr : rest.Nodup := (List.nodup_cons.mp hnd).2
      constructor
      · intro g hg hpen
        rcases List.mem_cons.mp hg with hga | hgr
        · subst hga
          simp only [gapFillCycle, if_pos hpen]
          refine ⟨List.mem_cons_self _ _, ?_, ?_⟩
          · intro hmem
            exact hand (gapFillCycle_processed_subset now outcome rest pens hmem)
          · exact gapFillCycle_pens_not_mem now outcome rest g hand pens
        · have hga : g ≠ a := fun h => hand (h ▸ hgr)
          simp only [gapFillCycle]
          split
          · have h := ((ih pens hndr).1 g hgr hpen)
            exact ⟨List.mem_cons_of_mem a h.1, h.2.1, h.2.2⟩
          · cases houtc : outcome a <;> simp only []
            case ok n =>
              have h := ((ih pens hndr).1 g hgr hpen)
              refine ⟨h.1, ?_, h.2.2⟩
              intro hmem
              rcases List.mem_cons.mp hmem with h1 | h1
              · exact hga h1
              · exact h.2.1 h1
            case flood sec raisedAt =>
              have hpen2 : now < (fun x => if x = a then raisedAt + sec else pens x) g := by
                simp [hga, hpen]
              have h := ((ih (fun x => if x = a then raisedAt + sec else pens x) hndr).1 g hgr hpen2)
              refine ⟨h.1, h.2.1, ?_⟩
              rw [h.2.2]
              simp [hga]
            all_goals exact (ih pens hndr).1 g hgr hpen
      · intro g hg hpen
        rcases List.mem_cons.mp hg with hga | hgr
        · subst hga
          simp only [gapFillCycle, if_neg hpen]
          cases houtc : outcome g <;> simp only []
          case ok n =>
            refine ⟨⟨fun _ => ⟨n, rfl⟩, fun _ => List.mem_cons_self _ _⟩, ?_⟩
            intro sec raisedAt hfl
            cases hfl
          case flood sec raisedAt =>
            constructor
            · constructor
              · intro hmem
                exact absurd (gapFillCycle_processed_subset now outcome rest _ hmem) hand
              · rintro ⟨n, hn⟩
                cases hn
            · intro sec2 r2 hfl
              cases hfl
              rw [gapFillCycle_pens_not_mem now outcome rest g hand]
              simp
          all_goals {
            refine ⟨⟨?_, ?_⟩, ?_⟩
            · intro hmem
              exact absurd (gapFillCycle_processed_subset now outcome rest pens hmem) hand
            · rintro ⟨n, hn⟩
              cases hn
            · intro sec r2 hfl
              cases hfl }
        · have hga : g ≠ a := fun h => hand (h ▸ hgr)
          simp only [gapFillCycle]
          split
          · have h := ((ih pens hndr).2 g hgr hpen)
            exact ⟨h.1, h.2⟩
          · cases houtc : outcome a <;> simp only []
            case ok n =>
              have h := ((ih pens hndr).2 g hgr hpen)
              refine ⟨?_, h.2⟩
              constructor
              · intro hmem
                rcases List.mem_cons.mp hmem with h1 | h1
                · exact absurd h1 hga
                · exact h.1.mp h1
              · intro hex
                exact List.mem_cons_of_mem a (h.1.mpr hex)
            case flood sec raisedAt =>
              have hpen2 : ¬ now < (fun x => if x = a then raisedAt + sec else pens x) g := by
                simpa [hga] using hpen
              have h := ((ih (fun x => if x = a then raisedAt + sec else pens x) hndr).2 g hgr hpen2)
              exact ⟨h.1, h.2⟩
            all_goals exact (ih pens hndr).2 g hgr hpen

/-- Witness for `C6_gap_fill_skips_penalized` on groups `[1, 2, 3]` at time
5: group 1 (penalty 10) is skipped with its penalty untouched, group 2 is
processed in the same cycle, and group 3's FloodWait records penalty 12. -/
theorem C6_gap_fill_skips_penalized_witness :
    (1 ∈ (gapFillCycle 5 gapOutcomeExample gapPensExample [1, 2, 3]).skippedFlood ∧
     1 ∉ (gapFillCycle 5 gapOutcomeExample gapPensExample [1, 2, 3]).processed ∧
     (gapFillCycle 5 gapOutcomeExample gapPensExample [1, 2, 3]).pens 1 = gapPensExample 1) ∧
    (2 ∈ (gapFillCycle 5 gapOutcomeExample gapPensExample [1, 2, 3]).processed ↔
      ∃ n, gapOutcomeExample 2 = GOutcome.ok n) ∧
    (gapFillCycle 5 gapOutcomeExample gapPensExample [1, 2, 3]).pens 3 = 5 + 7 :=
  ⟨(C6_gap_fill_skips_penalized 5 gapOutcomeExample gapPensExample [1, 2, 3]
      (by decide)).1 1 (by decide) (by decide),
   ((C6_gap_fill_skips_penalized 5 gapOutcomeExample gapPensExample [1, 2, 3]
      (by decide)).2 2 (by decide) (by decide)).1,
   ((C6_gap_fill_skips_penalized 5 gapOutcomeExample gapPensExample [1, 2, 3]
      (by decide)).2 3 (by decide) (by decide)).2 7 5 (by decide)⟩

/-- C8: a deleted-message event for a registered group is applied
synchronously, bypassing the ingestion queue (the queue is unchanged): it
maps every message row through the soft-delete update — setting
`is_deleted = TRUE` exactly on the rows of that group whose id is among the
deleted ids and leaving every other row untouched — never removes a row
(the row count is preserved), and publishes exactly one `"update"` fan-out
notification per deleted message id. -/
theorem C8_delete_soft_and_broadcast (gmap : ℤ → Option ℤ) (db : List DbRow)
    (queue : List QueueItem) (chatId cid groupUuid : ℤ) (deletedIds : List ℤ)
    (h1 : normalizeChatId chatId = some cid) (h2 : gmap cid = some groupUuid) :
    (onMessageDeleted gmap db queue chatId deletedIds).1 =
      db.map (softDeleteRow groupUuid deletedIds) ∧
    (∀ r : DbRow, r.groupId = groupUuid → r.telegramMessageId ∈ deletedIds →
      softDeleteRow groupUuid deletedIds r = { r with isDeleted := true }) ∧
    (∀ r : DbRow, r.groupId ≠ groupUuid ∨ r.telegramMessageId ∉ deletedIds →
      softDeleteRow groupUuid deletedIds r = r) ∧
    (onMessageDeleted gmap db queue chatId deletedIds).1.length = db.length ∧
    (onMessageDeleted gmap db queue chatId deletedIds).2.1 =
      deletedIds.map (fun mid => Notification.mk "update" ⟨mid, groupUuid⟩) ∧
    (onMessageDeleted gmap db queue chatId deletedIds).2.1.length = deletedIds.length ∧
    (onMessageDeleted gmap db queue chatId deletedIds).2.2 = queue := by
  have he : onMessageDeleted gmap db queue chatId deletedIds =
      (db.map (softDeleteRow groupUuid deletedIds),
       deletedIds.map (fun mid => Notification.mk "update" ⟨mid, groupUuid⟩),
       queue) := by
    unfold onMessageDeleted
    rw [h1]
    dsimp only
    rw [h2]
  refine ⟨by rw [he], ?_, ?_, by rw [he]; simp, by rw [he], by rw [he]; simp, by rw [he]⟩
  · intro r hgr hmem
    simp [softDeleteRow, hgr, hmem]
  · intro r h
    unfold softDeleteRow
    rcases h with h | h <;> simp [h]

/-- Witness for `C8_delete_soft_and_broadcast`: deleting message 7 of chat
-1001234 soft-deletes exactly the matching row of group 42, preserves the
row count, publishes one notification and leaves the queue alone. -/
theorem C8_delete_soft_and_broadcast_witness :
    (onMessageDeleted gmapExample dbExample [] (-1001234) [7]).1 =
      dbExample.map (softDeleteRow 42 [7]) ∧
    (onMessageDeleted gmapExample dbExample [] (-1001234) [7]).1.length =
      dbExample.length ∧
    (onMessageDeleted gmapExample dbExample [] (-1001234) [7]).2.1 =
      [Notification.mk "update" ⟨7, 42⟩] ∧
    (onMessageDeleted gmapExample dbExample [] (-1001234) [7]).2.2 = [] := by
  have h := C8_delete_soft_and_broadcast gmapExample dbExample [] (-1001234) 1234 42 [7]
    (by decide) (by decide)
  refine ⟨h.1, h.2.2.2.1, ?_, h.2.2.2.2.2.2⟩
  rw [h.2.2.2.2.1]
  rfl

theorem findKey_cons (e : String × Bool × ℤ) (rest : EnabledCache) (k : String) :
    List.find? (fun x => x.1 == k) (e :: rest) =
      (if e.1 == k then some e else List.find? (fun x => x.1 == k) rest) := by
  rw [List.find?_cons]
  by_cases h : (e.1 == k) = true
  · rw [h]
    simp [h]
  · have h2 : (e.1 == k) = false := by simpa using h
    rw [h2]
    simp [h2]

theorem lookupEnabled_cons_of_pos (e : String × Bool × ℤ) (rest : EnabledCache)
    (k : String) (h : (e.1 == k) = true) :
    lookupEnabled (e :: rest) k = some e.2 := by
  unfold lookupEnabled
  rw [findKey_cons, if_pos h]
  rfl

theorem lookupEnabled_cons_of_neg (e : String × Bool × ℤ) (rest : EnabledCache)
    (k : String) (h : (e.1 == k) = false) :
    lookupEnabled (e :: rest) k = lookupEnabled rest k := by
  unfold lookupEnabled
  rw [findKey_cons, if_neg (by simp [h])]

theorem lookupEnabled_map_set (c : EnabledCache) (k : String) (v : Bool × ℤ)
    (hp : (c.find? (fun e => e.1 == k)).isSome) :
    lookupEnabled (c.map (fun e => if e.1 == k then (k, v) else e)) k = some v := by
  induction c with
  | nil => simp [List.find?] at hp
  | cons e rest ih =>
      simp only [List.map_cons]
      by_cases he : (e.1 == k) = true
      · rw [if_pos he, lookupEnabled_cons_of_pos _ _ _ (by simp)]
      · have he2 : (e.1 == k) = false := by simpa using he
        rw [findKey_cons, if_neg (by simp [he2])] at hp
        rw [if_neg (by simp [he2]), lookupEnabled_cons_of_neg _ _ _ he2]
        exact ih hp

theorem lookupEnabled_append_new (c : EnabledCache) (k : String) (v : Bool × ℤ)
    (hp : (c.find? (fun e => e.1 == k)).isSome = false) :
    lookupEnabled (c ++ [(k, v)]) k = some v := by
  induction c with
  | nil =>
      simp only [List.nil_append]
      rw [lookupEnabled_cons_of_pos _ _ _ (by simp)]
  | cons e rest ih =>
      simp only [List.cons_append]
      by_cases he : (e.1 == k) = true
      · rw [findKey_cons, if_pos he] at hp
        simp at hp
      · have he2 : (e.1 == k) = false := by simpa using he
        rw [findKey_cons, if_neg (by simp [he2])] at hp
        rw [lookupEnabled_cons_of_neg _ _ _ he2]
        exact ih hp

/-- Writing a key always makes it present with the written value. -/
theorem lookupEnabled_set (c : EnabledCache) (k : String) (v : Bool × ℤ) :
    lookupEnabled (setEnabledKey c k v) k = some v := by
  unfold setEnabledKey
  by_cases hp : (c.find? (fun e => e.1 == k)).isSome
  · rw [if_pos hp]
    exact lookupEnabled_map_set c k v hp
  · rw [if_neg hp]
    exact lookupEnabled_append_new c k v (Bool.not_eq_true _ ▸ eq_false_of_ne_true hp)

/-- C9: the group-enabled check fails open.  When the cached entry for the
group is absent or stale, and the `crawler_status` query either finds no
row (NULL) or raises, the check returns `True`, caches `(True, now)` for
the group, and any further check within the 60 s TTL returns `True` from
the cache without consulting the DB at all (its outcome is independent of
the next DB result). -/
theorem C9_enabled_fails_open (cache : EnabledCache) (now : ℤ) (k : String)
    (dbResult : Except Unit (Option Bool))
    (hstale : ∀ v t, lookupEnabled cache k = some (v, t) → ENABLED_CACHE_TTL ≤ now - t)
    (hfail : dbResult = Except.ok none ∨ dbResult = Except.error ()) :
    (isGroupEnabled cache now dbResult k).1 = true ∧
    lookupEnabled (isGroupEnabled cache now dbResult k).2 k = some (true, now) ∧
    (∀ (now2 : ℤ) (db2 : Except Unit (Option Bool)), now2 - now < ENABLED_CACHE_TTL →
      (isGroupEnabled (isGroupEnabled cache now dbResult k).2 now2 db2 k).1 = true) := by
  have hq : isGroupEnabled cache now dbResult k = isGroupEnabledQuery cache now dbResult k := by
    unfold isGroupEnabled
    cases hl : lookupEnabled cache k with
    | none => rfl
    | some p =>
        obtain ⟨v, t⟩ := p
        have := hstale v t hl
        dsimp only
        rw [if_neg (not_lt.mpr this)]
  rw [hq]
  have hcached : lookupEnabled (isGroupEnabledQuery cache now dbResult k).2 k
      = some (true, now) := by
    rcases hfail with h | h <;> subst h <;> exact lookupEnabled_set _ _ _
  refine ⟨?_, hcached, ?_⟩
  · rcases hfail with h | h <;> subst h <;> rfl
  · intro now2 db2 hfresh
    unfold isGroupEnabled
    rw [hcached]
    simp only [if_pos hfresh]

/-- Witness for `C9_enabled_fails_open`: an empty cache and a NULL query
result yield `True`, cache it, and keep answering `True` inside the TTL. -/
theorem C9_enabled_fails_open_witness :
    (isGroupEnabled [] 5 (Except.ok none) "42").1 = true ∧
    lookupEnabled (isGroupEnabled [] 5 (Except.ok none) "42").2 "42" = some (true, 5) ∧
    (∀ (now2 : ℤ) (db2 : Except Unit (Option Bool)), now2 - 5 < ENABLED_CACHE_TTL →
      (isGroupEnabled (isGroupEnabled [] 5 (Except.ok none) "42").2 now2 db2 "42").1 = true) :=
  C9_enabled_fails_open [] 5 "42" (Except.ok none)
    (by intro v t h; simp [lookupEnabled] at h)
    (Or.inl rfl)

theorem findIdKey_cons (e : ℤ × ℤ × String × ℤ) (rest : EntityCache) (k : ℤ) :
    List.find? (fun x => x.1 == k) (e :: rest) =
      (if e.1 == k then some e else List.find? (fun x => x.1 == k) rest) := by
  rw [List.find?_cons]
  by_cases h : (e.1 == k) = true
  · rw [h]
    simp [h]
  · have h2 : (e.1 == k) = false := by simpa using h
    rw [h2]
    simp [h2]

theorem entityCacheLookup_cons_of_pos (e : ℤ × ℤ × String × ℤ) (rest : EntityCache)
    (k : ℤ) (h : (e.1 == k) = true) :
    entityCacheLookup (e :: rest) k = some e.2 := by
  unfold entityCacheLookup
  rw [findIdKey_cons, if_pos h]
  rfl

theorem entityCacheLookup_cons_of_neg (e : ℤ × ℤ × String × ℤ) (rest : EntityCache)
    (k : ℤ) (h : (e.1 == k) = false) :
    entityCacheLookup (e :: rest) k = entityCacheLookup rest k := by
  unfold entityCacheLookup
  rw [findIdKey_cons, if_neg (by simp [h])]

theorem entityCacheLookup_map_set (c : EntityCache) (k : ℤ) (v : ℤ × String × ℤ)
    (hp : (c.find? (fun e => e.1 == k)).isSome) :
    entityCacheLookup (c.map (fun e => if e.1 == k then (k, v) else e)) k = some v := by
  induction c with
  | nil => simp [List.find?] at hp
  | cons e rest ih =>
      simp only [List.map_cons]
      by_cases he : (e.1 == k) = true
      · rw [if_pos he, entityCacheLookup_cons_of_pos _ _ _ (by simp)]
      · have he2 : (e.1 == k) = false := by simpa using he
        rw [findIdKey_cons, if_neg (by simp [he2])] at hp
        rw [if_neg (by simp [he2]), entityCacheLookup_cons_of_neg _ _ _ he2]
        exact ih hp

theorem entityCacheLookup_append_new (c : EntityCache) (k : ℤ) (v : ℤ × String × ℤ)
    (hp : (c.find? (fun e => e.1 == k)).isSome = false) :
    entityCacheLookup (c ++ [(k, v)]) k = some v := by
  induction c with
  | nil =>
      simp only [List.nil_append]
      rw [entityCacheLookup_cons_of_pos _ _ _ (by simp)]
  | cons e rest ih =>
      simp only [List.cons_append]
      by_cases he : (e.1 == k) = true
      · rw [findIdKey_cons, if_pos he] at hp
        simp at hp
      · have he2 : (e.1 == k) = false := by simpa using he
        rw [findIdKey_cons, if_neg (by simp [he2])] at hp
        rw [entityCacheLookup_cons_of_neg _ _ _ he2]
        exact ih hp

/-- Writing an entity cache key makes it present with the written value. -/
theorem entityCacheLookup_set (c : EntityCache) (k : ℤ) (v : ℤ × String × ℤ) :
    entityCacheLookup (entityCacheSet c k v) k = some v := by
  unfold entityCacheSet
  by_cases hp : (c.find? (fun e => e.1 == k)).isSome
  · rw [if_pos hp]
    exact entityCacheLookup_map_set c k v hp
  · rw [if_neg hp]
    exact entityCacheLookup_append_new c k v (Bool.not_eq_true _ ▸ eq_false_of_ne_true hp)

theorem entityCacheLookup_map_set_ne (c : EntityCache) (k k2 : ℤ) (v : ℤ × String × ℤ)
    (hne : k2 ≠ k) :
    entityCacheLookup (c.map (fun e => if e.1 == k then (k, v) else e)) k2 =
      entityCacheLookup c k2 := by
  induction c with
  | nil => rfl
  | cons e rest ih =>
      simp only [List.map_cons]
      by_cases he : (e.1 == k) = true
      · have hek : e.1 = k := by simpa using he
        have hb1 : ((k, v).1 == k2) = false := by
          rw [beq_eq_false_iff_ne]
          exact Ne.symm hne
        have hb2 : (e.1 == k2) = false := by
          rw [hek, beq_eq_false_iff_ne]
          exact Ne.symm hne
        rw [if_pos he, entityCacheLookup_cons_of_neg _ _ _ hb1,
          entityCacheLookup_cons_of_neg _ _ _ hb2, ih]
      · have he2 : (e.1 == k) = false := by simpa using he
        rw [if_neg (by simp [he2])]
        by_cases hk2 : (e.1 == k2) = true
        · rw [entityCacheLookup_cons_of_pos _ _ _ hk2, entityCacheLookup_cons_of_pos _ _ _ hk2]
        · have hk22 : (e.1 == k2) = false := by simpa using hk2
          rw [entityCacheLookup_cons_of_neg _ _ _ hk22,
            entityCacheLookup_cons_of_neg _ _ _ hk22, ih]

theorem entityCacheLookup_append_ne (c : EntityCache) (k k2 : ℤ) (v : ℤ × String × ℤ)
    (hne : k2 ≠ k) :
    entityCacheLookup (c ++ [(k, v)]) k2 = entityCacheLookup c k2 := by
  induction c with
  | nil =>
      simp only [List.nil_append]
      have hb1 : ((k, v).1 == k2) = false := by
        rw [beq_eq_false_iff_ne]
        exact Ne.symm hne
      rw [entityCacheLookup_cons_of_neg _ _ _ hb1]
  | cons e rest ih =>
      simp only [List.cons_append]
      by_cases hk2 : (e.1 == k2) = true
      · rw [entityCacheLookup_cons_of_pos _ _ _ hk2, entityCacheLookup_cons_of_pos _ _ _ hk2]
      · have hk22 : (e.1 == k2) = false := by simpa using hk2
        rw [entityCacheLookup_cons_of_neg _ _ _ hk22,
          entityCacheLookup_cons_of_neg _ _ _ hk22, ih]

/-- Writing one key leaves every other key's entry unchanged. -/
theorem entityCacheLookup_set_ne (c : EntityCache) (k k2 : ℤ) (v : ℤ × String × ℤ)
    (hne : k2 ≠ k) :
    entityCacheLookup (entityCacheSet c k v) k2 = entityCacheLookup c k2 := by
  unfold entityCacheSet
  split
  · exact entityCacheLookup_map_set_ne c k k2 v hne
  · exact entityCacheLookup_append_ne c k k2 v hne

theorem entityCacheSet_length (c : EntityCache) (k : ℤ) (v : ℤ × String × ℤ) :
    (entityCacheSet c k v).length ≤ c.length + 1 := by
  unfold entityCacheSet
  split
  · simp
  · simp

theorem entityCacheEvict_of_lt (c : EntityCache)
    (h : c.length < ENTITY_CACHE_MAX_SIZE) : entityCacheEvict c = c := by
  unfold entityCacheEvict
  rw [if_neg (Nat.not_le.mpr h)]

theorem cacheEntity_length (c : EntityCache) (e : TLEntity) (now : ℤ)
    (h : c.length < ENTITY_CACHE_MAX_SIZE) :
    (cacheEntity c e now).length ≤ c.length + 1 := by
  unfold cacheEntity
  cases e.kind
  · unfold saveEntityToCache
    rw [entityCacheEvict_of_lt c h]
    exact entityCacheSet_length c e.id (e.accessHash, "channel", now)
  · unfold saveEntityToCache
    rw [entityCacheEvict_of_lt c h]
    exact entityCacheSet_length c e.id (0, "chat", now)
  · exact Nat.le_succ _

theorem entityCacheLookup_set_isSome (c : EntityCache) (k k2 : ℤ) (v : ℤ × String × ℤ)
    (h : (entityCacheLookup c k2).isSome) :
    (entityCacheLookup (entityCacheSet c k v) k2).isSome := by
  by_cases hk : k2 = k
  · subst hk
    rw [entityCacheLookup_set]
    rfl
  · rw [entityCacheLookup_set_ne c k k2 v hk]
    exact h

theorem cacheEntity_preserves_isSome (c : EntityCache) (e : TLEntity) (now k2 : ℤ)
    (hlen : c.length < ENTITY_CACHE_MAX_SIZE)
    (h : (entityCacheLookup c k2).isSome) :
    (entityCacheLookup (cacheEntity c e now) k2).isSome := by
  unfold cacheEntity
  cases e.kind
  · unfold saveEntityToCache
    rw [entityCacheEvict_of_lt c hlen]
    exact entityCacheLookup_set_isSome c e.id k2 _ h
  · unfold saveEntityToCache
    rw [entityCacheEvict_of_lt c hlen]
    exact entityCacheLookup_set_isSome c e.id k2 _ h
  · exact h

theorem cacheEntity_cached (c : EntityCache) (e : TLEntity) (now : ℤ)
    (hlen : c.length < ENTITY_CACHE_MAX_SIZE) (hk : e.kind ≠ EntityKind.user) :
    (entityCacheLookup (cacheEntity c e now) e.id).isSome := by
  unfold cacheEntity
  cases hkk : e.kind
  · unfold saveEntityToCache
    rw [entityCacheEvict_of_lt c hlen, entityCacheLookup_set]
    rfl
  · unfold saveEntityToCache
    rw [entityCacheEvict_of_lt c hlen, entityCacheLookup_set]
    rfl
  · exact absurd hkk hk

/-- The dialog-warming loop grows the cache by at most one entry per
dialog, keeps every previously cached id cached, and caches every
discovered Channel/Chat dialog, provided the cap is never reached. -/
theorem warmDialogs_spec (gid now : ℤ) (ds : List TLEntity) :
    ∀ (c : EntityCache) (tgt : Option TLEntity),
      c.length + ds.length ≤ ENTITY_CACHE_MAX_SIZE →
      ((warmDialogs gid now c tgt ds).1.length ≤ c.length + ds.length ∧
       (∀ k, (entityCacheLookup c k).isSome →
         (entityCacheLookup (warmDialogs gid now c tgt ds).1 k).isSome) ∧
       (∀ d ∈ ds, d.kind ≠ EntityKind.user →
         (entityCacheLookup (warmDialogs gid now c tgt ds).1 d.id).isSome)) := by
  induction ds with
  | nil =>
      intro c tgt _
      exact ⟨by simp [warmDialogs], fun k hk => hk,
        fun d hd => absurd hd (List.not_mem_nil d)⟩
  | cons e rest ih =>
      intro c tgt h
      have hlt : c.length < ENTITY_CACHE_MAX_SIZE := by
        simp only [List.length_cons] at h
        omega
      have hc1len : (cacheEntity c e now).length ≤ c.length + 1 :=
        cacheEntity_length c e now hlt
      have hbound : (cacheEntity c e now).length + rest.length ≤ ENTITY_CACHE_MAX_SIZE := by
        simp only [List.length_cons] at h
        omega
      obtain ⟨ihlen, ihpres, ihmem⟩ :=
        ih (cacheEntity c e now) (if e.id = gid then some e else tgt) hbound
      simp only [warmDialogs]
      refine ⟨?_, ?_, ?_⟩
      · simp only [List.length_cons]
        omega
      · intro k hk
        exact ihpres k (cacheEntity_preserves_isSome c e now k hlt hk)
      · intro d hd hdk
        rcases List.mem_cons.mp hd with h1 | h1
        · subst h1
          exact ihpres d.id (cacheEntity_cached c d now hlt hdk)
        · exact ihmem d h1 hdk

/-- When no dialog entity matches the target, the warming loop reports no
target. -/
theorem warmDialogs_target_none (gid now : ℤ) (ds : List TLEntity) :
    ∀ (c : EntityCache) (tgt : Option TLEntity), (∀ d ∈ ds, d.id ≠ gid) →
      (warmDialogs gid now c tgt ds).2 = tgt := by
  induction ds with
  | nil => intro c tgt _; rfl
  | cons e rest ih =>
      intro c tgt hd
      simp only [warmDialogs]
      rw [if_neg (hd e (List.mem_cons_self e rest))]
      exact ih _ _ (fun d h => hd d (List.mem_cons_of_mem e h))

/-- The DB-DELETE marker set by the stale-cache eviction survives every
fall-through path. -/
theorem resolveAfterCacheMiss_dbDeleted (gid : ℤ) (c : EntityCache)
    (orc : ResolveOracle) (now lf : ℤ) (dl : Bool) :
    (resolveAfterCacheMiss gid c orc now lf dl).dbDeleted = dl := by
  unfold resolveAfterCacheMiss
  cases orc.dirChannel with
  | some e => rfl
  | none =>
      dsimp only
      cases orc.dirChat with
      | some e => rfl
      | none =>
          dsimp only
          split
          · cases orc.finalChannel <;> rfl
          · cases (warmDialogs gid now c none orc.dialogs).2 with
            | some t => rfl
            | none => cases orc.finalChannel <;> rfl

/-- C5: entity resolution proceeds in the claimed order.  (1) An in-memory
cache hit attempts resolution with the cached routing handle; success
returns that entity having refreshed only the entry's access time, with no
dialog listing and no eviction; failure evicts the stale entry from memory
and issues the persistent-store DELETE before falling through.  (2) A miss
goes straight to the fall-through steps.  There, direct resolution by raw
id is attempted (PeerChannel, then PeerChat), each success caching the
entity and listing no dialogs.  (3) When both direct attempts fail: if the
dialog-listing cooldown (600 s since the last listing) is active, no
listing happens and the listing timestamp is untouched; otherwise a full
listing runs, the timestamp is set to now and every discovered Channel/Chat
entity is cached (not just the target; under the cache-size cap).  (4) When
every step fails, the domain error stating the entity is not resolvable is
raised. -/
theorem C5_resolution_order (gid : ℤ) (cache0 : EntityCache) (orc : ResolveOracle)
    (now lastFetch : ℤ) :
    (∀ (hash : ℤ) (ty : String) (ts : ℤ) (e : TLEntity),
      entityCacheLookup cache0 gid = some (hash, ty, ts) →
      orc.cachedRes = some e →
      resolveEntity gid cache0 orc now lastFetch =
        ⟨Except.ok e, entityCacheSet cache0 gid (hash, ty, now), false, false, lastFetch⟩) ∧
    (∀ (hash : ℤ) (ty : String) (ts : ℤ),
      entityCacheLookup cache0 gid = some (hash, ty, ts) →
      orc.cachedRes = none →
      resolveEntity gid cache0 orc now lastFetch =
        resolveAfterCacheMiss gid
          (entityCacheErase (entityCacheSet cache0 gid (hash, ty, now)) gid)
          orc now lastFetch true ∧
      (resolveEntity gid cache0 orc now lastFetch).dbDeleted = true) ∧
    (entityCacheLookup cache0 gid = none →
      resolveEntity gid cache0 orc now lastFetch =
        resolveAfterCacheMiss gid cache0 orc now lastFetch false) ∧
    (∀ (c : EntityCache) (dl : Bool) (e : TLEntity), orc.dirChannel = some e →
      resolveAfterCacheMiss gid c orc now lastFetch dl =
        ⟨Except.ok e, cacheEntity c e now, dl, false, lastFetch⟩) ∧
    (∀ (c : EntityCache) (dl : Bool) (e : TLEntity),
      orc.dirChannel = none → orc.dirChat = some e →
      resolveAfterCacheMiss gid c orc now lastFetch dl =
        ⟨Except.ok e, cacheEntity c e now, dl, false, lastFetch⟩) ∧
    (∀ (c : EntityCache) (dl : Bool), orc.dirChannel = none → orc.dirChat = none →
      now - lastFetch < DIALOGS_COOLDOWN →
      (resolveAfterCacheMiss gid c orc now lastFetch dl).dialogsCalled = false ∧
      (resolveAfterCacheMiss gid c orc now lastFetch dl).lastFetch = lastFetch) ∧
    (∀ (c : EntityCache) (dl : Bool), orc.dirChannel = none → orc.dirChat = none →
      ¬ now - lastFetch < DIALOGS_COOLDOWN →
      (resolveAfterCacheMiss gid c orc now lastFetch dl).dialogsCalled = true ∧
      (resolveAfterCacheMiss gid c orc now lastFetch dl).lastFetch = now ∧
      (c.length + orc.dialogs.length + 1 ≤ ENTITY_CACHE_MAX_SIZE →
        ∀ d ∈ orc.dialogs, d.kind ≠ EntityKind.user →
          (entityCacheLookup
            (resolveAfterCacheMiss gid c orc now lastFetch dl).cache d.id).isSome)) ∧
    (∀ (c : EntityCache) (dl : Bool), orc.dirChannel = none → orc.dirChat = none →
      orc.finalChannel = none → (∀ d ∈ orc.dialogs, d.id ≠ gid) →
      (resolveAfterCacheMiss gid c orc now lastFetch dl).outcome =
        Except.error (entityErrorMsg gid)) := by
  refine ⟨?_, ?_, ?_, ?_, ?_, ?_, ?_, ?_⟩
  · intro hash ty ts e hlook hres
    unfold resolveEntity
    rw [hlook]
    dsimp only
    rw [hres]
  · intro hash ty ts hlook hres
    have heq : resolveEntity gid cache0 orc now lastFetch =
        resolveAfterCacheMiss gid
          (entityCacheErase (entityCacheSet cache0 gid (hash, ty, now)) gid)
          orc now lastFetch true := by
      unfold resolveEntity
      rw [hlook]
      dsimp only
      rw [hres]
    exact ⟨heq, by rw [heq]; exact resolveAfterCacheMiss_dbDeleted _ _ _ _ _ _⟩
  · intro hlook
    unfold resolveEntity
    rw [hlook]
  · intro c dl e h1
    unfold resolveAfterCacheMiss
    rw [h1]
  · intro c dl e h1 h2
    unfold resolveAfterCacheMiss
    rw [h1]
    dsimp only
    rw [h2]
  · intro c dl h1 h2 hcd
    unfold resolveAfterCacheMiss
    rw [h1]
    dsimp only
    rw [h2]
    dsimp only
    rw [if_pos hcd]
    cases orc.finalChannel <;> exact ⟨rfl, rfl⟩
  · intro c dl h1 h2 hcd
    unfold resolveAfterCacheMiss
    rw [h1]
    dsimp only
    rw [h2]
    dsimp only
    rw [if_neg hcd]
    refine ⟨?_, ?_, ?_⟩
    · cases (warmDialogs gid now c none orc.dialogs).2 with
      | some t => rfl
      | none => cases orc.finalChannel <;> rfl
    · cases (warmDialogs gid now c none orc.dialogs).2 with
      | some t => rfl
      | none => cases orc.finalChannel <;> rfl
    · intro hbound d hd hdk
      have hlen : c.length + orc.dialogs.length ≤ ENTITY_CACHE_MAX_SIZE := by omega
      obtain ⟨hwl, hwp, hwm⟩ := warmDialogs_spec gid now orc.dialogs c none hlen
      cases hw : (warmDialogs gid now c none orc.dialogs).2 with
      | some t => exact hwm d hd hdk
      | none =>
          cases hf : orc.finalChannel with
          | none => exact hwm d hd hdk
          | some e2 =>
              have hwlen : (warmDialogs gid now c none orc.dialogs).1.length <
                  ENTITY_CACHE_MAX_SIZE := by omega
              exact cacheEntity_preserves_isSome _ e2 now d.id hwlen (hwm d hd hdk)
  · intro c dl h1 h2 hf htgt
    unfold resolveAfterCacheMiss
    rw [h1]
    dsimp only
    rw [h2]
    dsimp only
    by_cases hcd : now - lastFetch < DIALOGS_COOLDOWN
    · rw [if_pos hcd, hf]
    · rw [if_neg hcd, warmDialogs_target_none gid now orc.dialogs c none htgt, hf]

/-- Witness for `C5_resolution_order`: a cache hit resolves with zero
fall-through; with everything else failing and the cooldown expired, the
listing runs and the discovered channel ends up cached. -/
theorem C5_resolution_order_witness :
    (resolveEntity 5 entityCacheExample orcHitExample 1000 0 =
      ⟨Except.ok ⟨5, EntityKind.channel, 77⟩,
       entityCacheSet entityCacheExample 5 (77, "channel", 1000), false, false, 0⟩) ∧
    ((resolveAfterCacheMiss 6 [] orcWarmExample 1000 0 false).dialogsCalled = true) ∧
    (entityCacheLookup
      (resolveAfterCacheMiss 6 [] orcWarmExample 1000 0 false).cache 6).isSome :=
  ⟨(C5_resolution_order 5 entityCacheExample orcHitExample 1000 0).1
      77 "channel" 0 ⟨5, EntityKind.channel, 77⟩ (by decide) rfl,
   ((C5_resolution_order 6 [] orcWarmExample 1000 0).2.2.2.2.2.2.1
      [] false rfl rfl (by decide)).1,
   ((C5_resolution_order 6 [] orcWarmExample 1000 0).2.2.2.2.2.2.1
      [] false rfl rfl (by decide)).2.2 (by decide)
      ⟨6, EntityKind.channel, 88⟩ (by decide) (by decide)⟩

theorem serializeNotification_length (ev : String) (p : BPayload) :
    (serializeNotification ev p).length =
      ev.length + p.others.length + p.content.length + 43 := by
  simp only [serializeNotification, String.length_append]
  have h1 : ("\x7b\"event\": \"" : String).length = 11 := rfl
  have h2 : ("\", \"payload\": \x7b" : String).length = 15 := rfl
  have h3 : (", \"content\": \"" : String).length = 14 := rfl
  have h4 : ("\"\x7d\x7d" : String).length = 3 := rfl
  omega

/-- C7: the claim asserts that an oversized notification is truncated so
that the published notification fits within the limit.  This fails when the
oversize does not come from the content field: a payload whose non-content
part serializes to 9000 characters with an empty content exceeds the
7900-byte guard, the truncation step changes nothing (only contents longer
than 200 characters are cut), and the string actually handed to
`pg_notify` still exceeds both the guard and the hard 8000-byte NOTIFY
limit. -/
theorem C7_counterexample :
    NOTIFY_GUARD <
      (serializeNotification "insert" (BPayload.mk bigOthers "")).length ∧
    8000 < (broadcastNotification "insert" (BPayload.mk bigOthers "")).length := by
  have hb : bigOthers.length = 9000 := by
    show (List.replicate 9000 'a').length = 9000
    rw [List.length_replicate]
  have hs : (serializeNotification "insert" (BPayload.mk bigOthers "")).length = 9049 := by
    rw [serializeNotification_length]
    rw [show ("insert" : String).length = 6 from rfl,
      show (BPayload.mk bigOthers "").others.length = bigOthers.length from rfl,
      show (BPayload.mk bigOthers "").content.length = 0 from rfl, hb]
  constructor
  · rw [hs]
    decide
  · unfold broadcastNotification
    rw [if_pos (by rw [hs]; decide)]
    have ht : truncatePayload (BPayload.mk bigOthers "") = BPayload.mk bigOthers "" := by
      unfold truncatePayload
      rw [if_neg (by decide)]
    rw [ht, hs]
    decide

/-- C7 (amended): a notification within the 7900-byte guard is published
unchanged; one exceeding the guard is re-serialized with its content field
truncated to its first 200 characters plus an ellipsis (at most 203
characters), which makes the published notification fit within the guard
whenever the rest of the notification (event name plus non-content payload
fields) stays within 7654 bytes — truncation touches only the content
field and does not bound the rest. -/
theorem C7_truncation_amended (ev : String) (p : BPayload) :
    ((serializeNotification ev p).length ≤ NOTIFY_GUARD →
      broadcastNotification ev p = serializeNotification ev p) ∧
    (NOTIFY_GUARD < (serializeNotification ev p).length →
      broadcastNotification ev p = serializeNotification ev (truncatePayload p) ∧
      (truncatePayload p).content.length ≤ 203 ∧
      (ev.length + p.others.length + 246 ≤ NOTIFY_GUARD →
        (broadcastNotification ev p).length ≤ NOTIFY_GUARD)) := by
  have htc : (truncatePayload p).content.length ≤ 203 := by
    unfold truncatePayload
    by_cases hc : p.content.length > 200
    · rw [if_pos hc]
      show (pySlice p.content 200 ++ "...").length ≤ 203
      rw [String.length_append]
      have : (pySlice p.content 200).length = min 200 p.content.length := by
        show (p.content.data.take 200).length = min 200 p.content.length
        rw [List.length_take]
        rfl
      rw [this]
      have : ("..." : String).length = 3 := rfl
      omega
    · rw [if_neg hc]
      omega
  have hto : (truncatePayload p).others = p.others := by
    unfold truncatePayload
    by_cases hc : p.content.length > 200
    · rw [if_pos hc]
    · rw [if_neg hc]
  constructor
  · intro h
    unfold broadcastNotification
    rw [if_neg (Nat.not_lt.mpr h)]
  · intro h
    have hcond : broadcastNotification ev p =
        serializeNotification ev (truncatePayload p) := by
      unfold broadcastNotification
      rw [if_pos h]
    refine ⟨hcond, htc, ?_⟩
    intro hsmall
    rw [hcond, serializeNotification_length, hto]
    omega

/-- Witness for `C7_truncation_amended`: a tiny notification is published
unchanged, and an oversized content is cut to fit. -/
theorem C7_truncation_amended_witness :
    broadcastNotification "insert" (BPayload.mk "\"group_id\": 1" "hi") =
      serializeNotification "insert" (BPayload.mk "\"group_id\": 1" "hi") ∧
    (NOTIFY_GUARD <
        (serializeNotification "update" (BPayload.mk "\"group_id\": 1" bigOthers)).length →
      (broadcastNotification "update" (BPayload.mk "\"group_id\": 1" bigOthers)).length ≤
        NOTIFY_GUARD) :=
  ⟨(C7_truncation_amended "insert" (BPayload.mk "\"group_id\": 1" "hi")).1
      (by rw [serializeNotification_length]; decide),
   fun h =>
     ((C7_truncation_amended "update" (BPayload.mk "\"group_id\": 1" bigOthers)).2 h).2.2
       (by decide)⟩

theorem subscribeOne_apply_self (q : ℕ) (reg : Registry) (g : String) :
    subscribeOne q reg g g = some ((reg g).getD ∅ ∪ {q}) := by
  simp [subscribeOne]

theorem subscribeOne_apply_ne (q : ℕ) (reg : Registry) (g x : String)
    (h : x ≠ g) : subscribeOne q reg g x = reg x := by
  simp [subscribeOne, h]

theorem unsubscribeOne_apply_self (q : ℕ) (reg : Registry) (g : String) :
    unsubscribeOne q reg g g = removeFrom q (reg g) := by
  unfold unsubscribeOne removeFrom
  cases hg : reg g with
  | none => simp [hg]
  | some s =>
      by_cases h : s.erase q = ∅ <;> simp [h]

theorem unsubscribeOne_apply_ne (q : ℕ) (reg : Registry) (g x : String)
    (h : x ≠ g) : unsubscribeOne q reg g x = reg x := by
  unfold unsubscribeOne
  cases hg : reg g with
  | none => rfl
  | some s =>
      by_cases he : s.erase q = ∅ <;> simp [he, h]

/-- Pointwise closed form of `subscribe`. -/
theorem subscribe_apply (gids : List String) (q : ℕ) (reg : Registry) (x : String) :
    subscribe gids q reg x =
      if x ∈ gids then some ((reg x).getD ∅ ∪ {q}) else reg x := by
  induction gids generalizing reg with
  | nil => simp [subscribe]
  | cons g t ih =>
      show subscribe t q (subscribeOne q reg g) x = _
      rw [ih]
      by_cases hxg : x = g
      · subst hxg
        by_cases hxt : x ∈ t
        · simp [hxt, subscribeOne_apply_self, Finset.union_assoc]
        · simp [hxt, subscribeOne_apply_self]
      · by_cases hxt : x ∈ t
        · simp [hxt, subscribeOne_apply_ne q reg g x hxg, hxg]
        · simp [hxt, subscribeOne_apply_ne q reg g x hxg, hxg]

theorem removeFrom_idem (q : ℕ) (o : Option (Finset ℕ)) :
    removeFrom q (removeFrom q o) = removeFrom q o := by
  unfold removeFrom
  cases o with
  | none => rfl
  | some s =>
      by_cases h : s.erase q = ∅
      · simp [h]
      · simp [h, Finset.erase_idem]

/-- Pointwise closed form of `unsubscribe`. -/
theorem unsubscribe_apply (gids : List String) (q : ℕ) (reg : Registry) (x : String) :
    unsubscribe gids q reg x =
      if x ∈ gids then removeFrom q (reg x) else reg x := by
  induction gids generalizing reg with
  | nil => simp [unsubscribe]
  | cons g t ih =>
      show unsubscribe t q (unsubscribeOne q reg g) x = _
      rw [ih]
      by_cases hxg : x = g
      · subst hxg
        by_cases hxt : x ∈ t
        · simp [hxt, unsubscribeOne_apply_self, removeFrom_idem]
        · simp [hxt, unsubscribeOne_apply_self]
      · by_cases hxt : x ∈ t
        · simp [hxt, unsubscribeOne_apply_ne q reg g x hxg, hxg]
        · simp [hxt, unsubscribeOne_apply_ne q reg g x hxg, hxg]

/-- C10: for any list of group ids, unsubscribing the queue returned by the
matching subscribe restores the registry exactly.  The hypotheses record the
invariants the class maintains: the queue handed to `unsubscribe` is the
freshly allocated one from `subscribe` (so it belongs to no prior set), and
the registry never stores an empty subscriber set (unsubscribe deletes keys
that became empty and subscribe only ever adds to a set). -/
theorem C10_unsubscribe_undoes_subscribe (gids : List String) (q : ℕ) (reg : Registry)
    (hfresh : ∀ x s, reg x = some s → q ∉ s)
    (hne : ∀ x s, reg x = some s → s.Nonempty) :
    unsubscribe gids q (subscribe gids q reg) = reg := by
  funext x
  rw [unsubscribe_apply, subscribe_apply]
  by_cases hx : x ∈ gids
  · simp only [hx, if_pos]
    cases hreg : reg x with
    | none =>
        simp [removeFrom]
    | some s =>
        have hq := hfresh x s hreg
        have hs := (hne x s hreg).ne_empty
        have h1 : (s ∪ {q}).erase q = s := by
          rw [Finset.erase_union_distrib, Finset.erase_singleton, Finset.union_empty,
            Finset.erase_eq_of_not_mem hq]
        simp [removeFrom, h1, hs]
  · simp [hx]

/-- Witness for `C10_unsubscribe_undoes_subscribe`: subscribing queue 2 to
groups "a" and "b" and then unsubscribing it restores `regExample`. -/
theorem C10_unsubscribe_undoes_subscribe_witness :
    unsubscribe ["a", "b"] 2 (subscribe ["a", "b"] 2 regExample) = regExample := by
  apply C10_unsubscribe_undoes_subscribe
  · intro x s h
    by_cases hx : x = "a" <;> simp [regExample, hx] at h
    subst h
    decide
  · intro x s h
    by_cases hx : x = "a" <;> simp [regExample, hx] at h
    subst h
    decide

end AaltoHub
